import Mathlib

/-!
Verification of the smart-shopping backend (`src/main.py`).

This file gives a shallow embedding of the three pieces of core logic the
specification describes, and proves the testable properties stated there:

* profile extraction (`extract_allergies_preferences`, main.py lines 115-130);
* cart classification (`process_cart` loop body, main.py lines 224-272);
* pickup store selection (`pickup_suggestion` loop, main.py lines 316-332).

Python strings are modelled by `String`, Python dicts by ordered association
lists (insertion order preserved, lookup takes the last binding, as a dict
comprehension with duplicate keys would), Python `None`-able results and
raised exceptions by `Option`.  The two fuzzywuzzy entry points that the code
calls (`fuzz.ratio` and `process.extractOne`) are external library functions,
so they are taken as parameters of the embedding; `extractOne` returns `none`
exactly when the library would return `None` (empty choice list), in which
case the Python code raises while unpacking the result.
-/

/-- String lower-casing, modelling Python's `str.lower()` (character-wise). -/
def pyLower (s : String) : String := ⟨s.data.map Char.toLower⟩

/-- Characters Python's `str.strip()` removes. -/
def isPySpace (c : Char) : Bool :=
  c == ' ' || c == '\t' || c == '\n' || c == '\r' || c == '\x0b' || c == '\x0c'

/-- Both-ends whitespace trimming, modelling Python's `str.strip()`. -/
def pyStrip (s : String) : String :=
  ⟨((s.data.dropWhile isPySpace).reverse.dropWhile isPySpace).reverse⟩

/-- Does `pat` occur as a contiguous sublist of the second argument?  This is
Python's substring operator `pat in l` on the underlying character lists. -/
def hasSublist (pat : List Char) : List Char → Bool
  | [] => pat.isPrefixOf []
  | c :: rest => pat.isPrefixOf (c :: rest) || hasSublist pat rest

/-- Python's substring test `needle in hay`. -/
def strContains (hay needle : String) : Bool := hasSublist needle.data hay.data

/-- Lookup in an ordered association list where a later binding shadows an
earlier one, the way a Python dict (or dict comprehension) behaves. -/
def dictGet {α : Type} : List (String × α) → String → Option α
  | [], _ => none
  | (k, v) :: rest, key =>
    match dictGet rest key with
    | some r => some r
    | none => if key == k then some v else none

/-- Left-to-right removal of every (non-overlapping) occurrence of the pattern
`" allergy"`, as Python's `str.replace(" allergy", "")` performs.  The fuel is
always instantiated with the length of the list, which suffices because every
step consumes at least one character. -/
def removeOccAux : Nat → List Char → List Char
  | 0, l => l
  | _ + 1, [] => []
  | fuel + 1, c :: rest =>
    if (" allergy".data).isPrefixOf (c :: rest) then
      removeOccAux fuel (rest.drop 7)
    else
      c :: removeOccAux fuel rest

/-- Python `s.replace(" allergy", "")` on a whole string. -/
def removeAllergyOcc (s : String) : String := ⟨removeOccAux s.data.length s.data⟩

/-- Normalisation applied to each allergy entry by main.py line 122:
`a.lower().replace(" allergy", "").strip()`. -/
def normAllergy (s : String) : String := pyStrip (removeAllergyOcc (pyLower s))

/-! ### JSON documents and profile extraction (main.py lines 115-130) -/

/-- Shallow model of a JSON-compatible Python value, as produced by
`json.loads` / `request.get_json`: object keys are strings, and all
non-container scalars other than strings are collapsed into the constructors
`num`, `bool`, `null` (none of them has a `.lower()` method, which is all the
extractor can observe about them). -/
inductive JVal where
  | str : String → JVal
  | num : Int → JVal
  | bool : Bool → JVal
  | null : JVal
  | arr : List JVal → JVal
  | obj : List (String × JVal) → JVal
deriving Repr

/-- Maps a string value to its payload; any other value has no `.lower()`
attribute, so Python raises `AttributeError` on it (modelled as `none`). -/
def jstr : JVal → Option String
  | .str s => some s
  | _ => none

/-- Runs `jstr` over a whole list, failing on the first non-string, as the
generator expressions in main.py lines 122 and 124 do. -/
def strList : List JVal → Option (List String)
  | [] => some []
  | v :: vs => do
      let s ← jstr v
      let rest ← strList vs
      pure (s :: rest)

/-- Contribution of one object entry to the allergy set (main.py lines
121-122): a key matching "allergies" (case-insensitively) whose value is a
list yields its elements normalised by `normAllergy`; the update raises if
some element is not a string. -/
def keyAllergies (k : String) (v : JVal) : Option (List String) :=
  if pyLower k == "allergies" then
    match v with
    | .arr items => (strList items).map (List.map normAllergy)
    | _ => some []
  else some []

/-- Contribution of one object entry to the preference set (main.py lines
123-124). -/
def keyPrefs (k : String) (v : JVal) : Option (List String) :=
  if pyLower k == "preferences" then
    match v with
    | .arr items => (strList items).map (List.map pyLower)
    | _ => some []
  else some []

/-- Recursive traversal `recurse` of main.py lines 118-128, collecting the
allergy and preference contributions of every object entry at every depth;
`none` models a raised `AttributeError`. -/
def extractA : JVal → Option (List String × List String)
  | .str _ => some ([], [])
  | .num _ => some ([], [])
  | .bool _ => some ([], [])
  | .null => some ([], [])
  | .arr [] => some ([], [])
  | .arr (x :: xs) => do
      let (a1, p1) ← extractA x
      let (a2, p2) ← extractA (.arr xs)
      pure (a1 ++ a2, p1 ++ p2)
  | .obj [] => some ([], [])
  | .obj ((k, v) :: rest) => do
      let a0 ← keyAllergies k v
      let p0 ← keyPrefs k v
      let (a1, p1) ← extractA v
      let (a2, p2) ← extractA (.obj rest)
      pure (a0 ++ a1 ++ a2, p0 ++ p1 ++ p2)

/-- Model of `extract_allergies_preferences` (main.py lines 115-130): the two
Python sets are the collected contributions with duplicates ignored. -/
def extract_allergies_preferences (j : JVal) : Option (Finset String × Finset String) :=
  (extractA j).map (fun ap => (ap.1.toFinset, ap.2.toFinset))

/-- Proposition: somewhere in the document `j`, an object entry whose key
matches `key` case-insensitively holds the list value `items`.  This is the
specification-level notion of a matching list "at any nesting depth". -/
inductive KeyListAt (key : String) : JVal → List JVal → Prop where
  | here {kvs : List (String × JVal)} {k : String} {items : List JVal} :
      (k, JVal.arr items) ∈ kvs → pyLower k = key → KeyListAt key (.obj kvs) items
  | viaVal {kvs : List (String × JVal)} {k : String} {v : JVal} {items : List JVal} :
      (k, v) ∈ kvs → KeyListAt key v items → KeyListAt key (.obj kvs) items
  | viaArr {l : List JVal} {v : JVal} {items : List JVal} :
      v ∈ l → KeyListAt key v items → KeyListAt key (.arr l) items

/-- Modelled from the spec for comparison only (spec section 4.2, "with the
literal suffix ' allergy' stripped"): removal of one literal trailing
occurrence of the suffix.  This is the transformation the specification's
wording describes, to be compared with the code's `normAllergy`. -/
def stripAllergySuffix (s : String) : String :=
  if (" allergy".data).isSuffixOf s.data then ⟨s.data.take (s.data.length - 8)⟩ else s

/-- Proposition: `x` is the image under `f` of some string element of a list
sitting under a key matching `key` somewhere in `j`.  Instantiated with
`normAllergy` / `pyLower`, this is what the extracted sets should contain. -/
def srcVia (key : String) (f : String → String) (j : JVal) (x : String) : Prop :=
  ∃ items s, KeyListAt key j items ∧ JVal.str s ∈ items ∧ f s = x

/-- Proposition: every list under an "allergies" or "preferences" key of `j`
contains only strings — the documents on which the Python extractor cannot
raise. -/
def goodProfile (j : JVal) : Prop :=
  ∀ key items, (key = "allergies" ∨ key = "preferences") → KeyListAt key j items →
    ∀ v ∈ items, ∃ s, v = JVal.str s

/-! ### Cart classification (main.py lines 192-278) -/

/-- Catalog product record, the fields of `utils/products.json` that the cart
classifier reads. -/
structure Product where
  name : String
  sku : String
  allergens : List String
deriving DecidableEq, Repr

/-- Entry of the static substitution table `utils/substitutions.json`. -/
structure SubstEntry where
  safeAlt : String
  reason : String
deriving DecidableEq, Repr

/-- One element of the returned cart (main.py lines 267-272). -/
structure CartEntry where
  original : String
  status : String
  safeAlternative : Option String
  reason : String
deriving DecidableEq, Repr

/-- The per-request dict `products` of main.py line 217: lower-cased name to
product record. -/
def productsByName (products : List Product) : List (String × Product) :=
  products.map (fun p => (pyLower p.name, p))

/-- The list `product_names` of main.py line 218. -/
def productNames (products : List Product) : List String :=
  products.map (fun p => pyLower p.name)

/-- Catalog resolution (main.py lines 227-232): exact lower-cased lookup
first, then fuzzy matching, keeping the best candidate only above score 80.
The outer `none` models the `TypeError` Python raises while unpacking
`extractOne`'s `None` result (empty catalog). -/
def resolveProduct (products : List Product)
    (extractOne : String → List String → Option (String × Nat)) (item_lc : String) :
    Option (Option Product) :=
  match dictGet (productsByName products) item_lc with
  | some p => some (some p)
  | none =>
    match extractOne item_lc (productNames products) with
    | none => none
    | some (best, score) =>
      some (if score > 80 then dictGet (productsByName products) best else none)

/-- The three-way disjunction of main.py lines 243-247 deciding that a
product allergen matches a profile allergy. -/
def riskCond (allergenDict : List (String × List String)) (ratio : String → String → Nat)
    (allergy allergen : String) : Bool :=
  allergy == pyLower allergen
    || allergenDict.any (fun kv => allergy == kv.1 && kv.2.contains (pyLower allergen))
    || decide (ratio allergy (pyLower allergen) > 80)

/-- First pair (in nested iteration order) satisfying `p`, with both loops
breaking at the first hit, as main.py lines 240-253 do. -/
def firstMatch {α β : Type} (p : α → β → Bool) : List α → List β → Option (α × β)
  | [], _ => none
  | a :: as, bs =>
    match bs.find? (p a) with
    | some b => some (a, b)
    | none => firstMatch p as bs

/-- The allergy/allergen pair (if any) that flags the item as a risk. -/
def riskPairOf (allergenDict : List (String × List String))
    (ratio : String → String → Nat) (allergies : List String) :
    Option Product → Option (String × String)
  | some product => firstMatch (riskCond allergenDict ratio) allergies product.allergens
  | none => none

/-- The risk reason string of main.py line 250. -/
def riskReason (allergen allergy : String) : String :=
  "Contains " ++ allergen ++ (", which matches your allergy or restriction: " ++ allergy ++ ".")

/-- The warn reason string of main.py line 260. -/
def warnReason (item : String) : String :=
  "You said you dislike or want to avoid " ++ item ++ "."

/-- Classification of one shopping-list item: the body of the loop at main.py
lines 225-272, producing the cart entry appended for that item.  `ratio` and
`extractOne` are the fuzzywuzzy collaborators; `none` models an exception
escaping the loop body. -/
def classifyItem (products : List Product) (allergenDict : List (String × List String))
    (substitutions : List (String × SubstEntry)) (ratio : String → String → Nat)
    (extractOne : String → List String → Option (String × Nat))
    (allergies preferences : List String) (item : String) : Option CartEntry :=
  let item_lc := pyLower item
  match resolveProduct products extractOne item_lc with
  | none => none
  | some productOpt =>
    let riskPair := riskPairOf allergenDict ratio allergies productOpt
    let flagged := riskPair.isSome
    let warned : Bool :=
      match productOpt with
      | some product =>
        if flagged then false
        else
          preferences.any (fun pref =>
            (product.allergens ++ [item_lc]).any (fun allergen =>
              strContains (pyLower allergen) pref || strContains item_lc pref))
      | none => false
    let status := if flagged then "Risk" else if warned then "Warn" else "Safe"
    let reason :=
      match riskPair with
      | some (allergy, allergen) => riskReason allergen allergy
      | none => if warned then warnReason item else ""
    match (if flagged then dictGet substitutions item_lc else none) with
    | some sub => some ⟨item, "Substituted", some sub.safeAlt, sub.reason⟩
    | none => some ⟨item, status, none, reason⟩

/-- Whether the loop at main.py lines 240-253 sets `flagged = True` for this
item. -/
def riskFlagged (products : List Product) (allergenDict : List (String × List String))
    (ratio : String → String → Nat)
    (extractOne : String → List String → Option (String × Nat))
    (allergies : List String) (item : String) : Bool :=
  match resolveProduct products extractOne (pyLower item) with
  | some productOpt => (riskPairOf allergenDict ratio allergies productOpt).isSome
  | none => false

/-- The cart accumulation loop of main.py lines 224-272: `cart` starts empty
and each item's entry is appended in order; an exception aborts the request. -/
def processCartLoop (products : List Product) (allergenDict : List (String × List String))
    (substitutions : List (String × SubstEntry)) (ratio : String → String → Nat)
    (extractOne : String → List String → Option (String × Nat))
    (allergies preferences : List String) : List String → List CartEntry → Option (List CartEntry)
  | [], cart => some cart
  | item :: rest, cart =>
    match classifyItem products allergenDict substitutions ratio extractOne
        allergies preferences item with
    | none => none
    | some e =>
      processCartLoop products allergenDict substitutions ratio extractOne
        allergies preferences rest (cart ++ [e])

/-- Model of the `/process-cart` classification stage (main.py lines
224-274): the cart built for a normalised shopping list. -/
def process_cart (products : List Product) (allergenDict : List (String × List String))
    (substitutions : List (String × SubstEntry)) (ratio : String → String → Nat)
    (extractOne : String → List String → Option (String × Nat))
    (allergies preferences : List String) (shoppingList : List String) :
    Option (List CartEntry) :=
  processCartLoop products allergenDict substitutions ratio extractOne
    allergies preferences shoppingList []

/-! ### Store selection (main.py lines 316-335) -/

/-- The list `packed_here` of main.py line 322: cart SKUs stocked by a store
(membership in the store's availability set). -/
def storePacked (avail : List String) (cartSkus : List String) : List String :=
  cartSkus.filter (fun sku => avail.contains sku)

/-- A store's coverage count as the loop compares it: `len(packed_here)`
against the running `best_count`, which starts at `-1`. -/
def storeCount (cartSkus : List String) (e : String × List String) : Int :=
  ((storePacked e.2 cartSkus).length : Int)

/-- The store loop of main.py lines 320-326, threading the state
`(best_store, best_count, packed)`; a later store replaces the current best
only on a strictly greater coverage count. -/
def selLoop (cartSkus : List String) :
    List (String × List String) → Option String × Int × List String →
    Option String × Int × List String
  | [], st => st
  | (store, avail) :: rest, (bs, bc, pk) =>
    let packedHere := storePacked avail cartSkus
    if (packedHere.length : Int) > bc then
      selLoop cartSkus rest (some store, (packedHere.length : Int), packedHere)
    else
      selLoop cartSkus rest (bs, bc, pk)

/-- Result of running the loop from its initial state
`best_store = None, best_count = -1, packed = []` (main.py lines 317-319). -/
def selectStore (stores : List (String × List String)) (cartSkus : List String) :
    Option String × Int × List String :=
  selLoop cartSkus stores (none, -1, [])

/-- The missing-item computation of main.py lines 328-332.  Python's
truthiness test `if best_store:` treats both `None` and the empty string as
false; in the lookup branch a `none` lookup would be a `KeyError`, modelled
by propagating `none`. -/
def computeMissing (stores : List (String × List String)) (best : Option String)
    (cartSkus : List String) : Option (List String) :=
  match best with
  | none => some cartSkus
  | some name =>
    if name = "" then some cartSkus
    else
      match dictGet stores name with
      | some avail => some (cartSkus.filter (fun sku => !(avail.contains sku)))
      | none => none

/-- The store, packed-SKU list and missing-SKU list of one selection run. -/
structure SelResult where
  store : Option String
  packed : List String
  missing : List String
deriving DecidableEq, Repr

/-- Model of the selection stage of `/pickup-suggestion` (main.py lines
316-332): best store, packed SKUs and missing SKUs for a resolved cart. -/
def pickup_selection (stores : List (String × List String)) (cartSkus : List String) :
    Option SelResult :=
  let res := selectStore stores cartSkus
  (computeMissing stores res.1 cartSkus).map (fun m => ⟨res.1, res.2.2, m⟩)

/-! ### Helper lemmas on the string and dictionary primitives -/

/-- A list is a prefix of itself followed by anything. -/
theorem isPrefixOf_append (p s : List Char) : p.isPrefixOf (p ++ s) = true := by
  induction p with
  | nil => simp
  | cons c cs ih => simp [List.isPrefixOf, ih]

/-- A sublist found at the very front is found. -/
theorem hasSublist_of_isPrefixOf (pat l : List Char) (h : pat.isPrefixOf l = true) :
    hasSublist pat l = true := by
  cases l with
  | nil => exact h
  | cons c rest => simp [hasSublist, h]

/-- Any explicitly embedded occurrence is found by `hasSublist`. -/
theorem hasSublist_of_append (pre pat suf : List Char) :
    hasSublist pat (pre ++ pat ++ suf) = true := by
  induction pre with
  | nil =>
    simp only [List.nil_append]
    exact hasSublist_of_isPrefixOf _ _ (isPrefixOf_append pat suf)
  | cons c cs ih =>
    simp only [List.cons_append, hasSublist, Bool.or_eq_true]
    right
    exact ih

/-- Concatenation of strings concatenates the underlying character lists. -/
theorem string_data_append (s t : String) : (s ++ t).data = s.data ++ t.data := by
  cases s; cases t; rfl

/-- A string occurring verbatim in the middle of a concatenation is a
substring of it. -/
theorem strContains_middle (pre mid suf : String) :
    strContains (pre ++ mid ++ suf) mid = true := by
  have h : (pre ++ mid ++ suf).data = pre.data ++ mid.data ++ suf.data := by
    simp [string_data_append]
  simp only [strContains, h]
  exact hasSublist_of_append pre.data mid.data suf.data

/-- Lookup of an absent key fails. -/
theorem dictGet_eq_none {α : Type} (l : List (String × α)) (key : String)
    (h : key ∉ l.map Prod.fst) : dictGet l key = none := by
  induction l with
  | nil => rfl
  | cons kv rest ih =>
    obtain ⟨k, v⟩ := kv
    simp only [List.map_cons, List.mem_cons] at h
    push_neg at h
    rw [dictGet, ih h.2]
    simp [beq_eq_false_iff_ne.mpr h.1]

/-- With pairwise distinct keys, looking up the key of the `i`-th entry
returns that entry's value. -/
theorem dictGet_getElem {α : Type} (l : List (String × α)) (i : Nat) (hi : i < l.length)
    (hnd : (l.map Prod.fst).Nodup) : dictGet l (l[i].1) = some l[i].2 := by
  induction l generalizing i with
  | nil => simp at hi
  | cons kv rest ih =>
    obtain ⟨k, v⟩ := kv
    simp only [List.map_cons, List.nodup_cons] at hnd
    cases i with
    | zero =>
      simp only [List.getElem_cons_zero]
      rw [dictGet, dictGet_eq_none rest k hnd.1]
      simp
    | succ i' =>
      have hi' : i' < rest.length := by simpa using hi
      simp only [List.getElem_cons_succ]
      rw [dictGet, ih i' hi' hnd.2]

/-- Soundness of `firstMatch`: a returned pair comes from the two lists and
satisfies the predicate. -/
theorem firstMatch_sound {α β : Type} (p : α → β → Bool) (as : List α) (bs : List β)
    (a : α) (b : β) (h : firstMatch p as bs = some (a, b)) :
    a ∈ as ∧ b ∈ bs ∧ p a b = true := by
  induction as with
  | nil => simp [firstMatch] at h
  | cons x as' ih =>
    rw [firstMatch] at h
    cases hf : bs.find? (p x) with
    | some b' =>
      rw [hf] at h
      injection h with h'
      injection h' with h1 h2
      subst h1; subst h2
      exact ⟨List.mem_cons_self _ _, List.mem_of_find?_eq_some hf, List.find?_some hf⟩
    | none =>
      rw [hf] at h
      obtain ⟨h1, h2, h3⟩ := ih h
      exact ⟨List.mem_cons_of_mem _ h1, h2, h3⟩

/-- Completeness of `firstMatch`: if some pair satisfies the predicate, a
pair is returned. -/
theorem firstMatch_isSome {α β : Type} (p : α → β → Bool) (as : List α) (bs : List β)
    (a : α) (b : β) (ha : a ∈ as) (hb : b ∈ bs) (hp : p a b = true) :
    ∃ a' b', firstMatch p as bs = some (a', b') := by
  induction as with
  | nil => simp at ha
  | cons x as' ih =>
    rw [firstMatch]
    cases hf : bs.find? (p x) with
    | some b' => exact ⟨x, b', rfl⟩
    | none =>
      rcases List.mem_cons.mp ha with rfl | ha'
      · exact absurd hp (List.find?_eq_none.mp hf b hb)
      · exact ih ha'

/-- Invariant of the store-selection loop: from any starting state the loop
either keeps the state (when no store strictly beats the incoming count) or
ends at the first store achieving the maximum count of the traversed list,
with its packed list and count installed. -/
theorem selLoop_spec (cartSkus : List String) (L : List (String × List String)) :
    ∀ (bs : Option String) (bc : Int) (pk : List String),
    (selLoop cartSkus L (bs, bc, pk) = (bs, bc, pk) ∧ ∀ e ∈ L, storeCount cartSkus e ≤ bc)
    ∨ (∃ i, ∃ hi : i < L.length,
        storeCount cartSkus L[i] > bc ∧
        (∀ j, ∀ hj : j < L.length, j < i →
          storeCount cartSkus L[j] < storeCount cartSkus L[i]) ∧
        (∀ j, ∀ hj : j < L.length,
          storeCount cartSkus L[j] ≤ storeCount cartSkus L[i]) ∧
        selLoop cartSkus L (bs, bc, pk) =
          (some L[i].1, storeCount cartSkus L[i], storePacked L[i].2 cartSkus)) := by
  induction L with
  | nil =>
    intro bs bc pk
    left
    exact ⟨rfl, fun e he => absurd he (List.not_mem_nil e)⟩
  | cons hd tl ih =>
    intro bs bc pk
    obtain ⟨store, avail⟩ := hd
    have hcnt : storeCount cartSkus (store, avail) = ((storePacked avail cartSkus).length : Int) :=
      rfl
    by_cases hc : ((storePacked avail cartSkus).length : Int) > bc
    · have hstep : selLoop cartSkus ((store, avail) :: tl) (bs, bc, pk) =
          selLoop cartSkus tl (some store, ((storePacked avail cartSkus).length : Int),
            storePacked avail cartSkus) := by
        simp [selLoop, hc]
      rcases ih (some store) ((storePacked avail cartSkus).length : Int)
          (storePacked avail cartSkus) with ⟨heq, hall⟩ | ⟨i, hi, h1, h2, h3, h4⟩
      · right
        refine ⟨0, Nat.succ_pos _, ?_, ?_, ?_, ?_⟩
        · simpa [List.getElem_cons_zero, hcnt] using hc
        · intro j hj hlt; omega
        · intro j hj
          simp only [List.getElem_cons_zero]
          cases j with
          | zero => simp
          | succ j' =>
            have hj' : j' < tl.length := by simpa using hj
            have hh := hall tl[j'] (List.getElem_mem hj')
            simpa [List.getElem_cons_succ, hcnt] using hh
        · rw [hstep, heq]
          simp [List.getElem_cons_zero, hcnt]
      · right
        have hi' : i + 1 < ((store, avail) :: tl).length := by simpa using Nat.succ_lt_succ hi
        refine ⟨i + 1, hi', ?_, ?_, ?_, ?_⟩
        · simp only [List.getElem_cons_succ]
          omega
        · intro j hj hlt
          simp only [List.getElem_cons_succ]
          cases j with
          | zero =>
            simp only [List.getElem_cons_zero]
            omega
          | succ j' =>
            have hj' : j' < tl.length := by simpa using hj
            have hh := h2 j' hj' (by omega)
            simpa [List.getElem_cons_succ] using hh
        · intro j hj
          simp only [List.getElem_cons_succ]
          cases j with
          | zero =>
            simp only [List.getElem_cons_zero]
            omega
          | succ j' =>
            have hj' : j' < tl.length := by simpa using hj
            have hh := h3 j' hj'
            simpa [List.getElem_cons_succ] using hh
        · rw [hstep, h4]
          simp [List.getElem_cons_succ]
    · have hstep : selLoop cartSkus ((store, avail) :: tl) (bs, bc, pk) =
          selLoop cartSkus tl (bs, bc, pk) := by
        simp [selLoop, hc]
      rcases ih bs bc pk with ⟨heq, hall⟩ | ⟨i, hi, h1, h2, h3, h4⟩
      · left
        refine ⟨by rw [hstep, heq], ?_⟩
        intro e he
        rcases List.mem_cons.mp he with rfl | he'
        · omega
        · exact hall e he'
      · right
        have hi' : i + 1 < ((store, avail) :: tl).length := by simpa using Nat.succ_lt_succ hi
        refine ⟨i + 1, hi', ?_, ?_, ?_, ?_⟩
        · simpa [List.getElem_cons_succ] using h1
        · intro j hj hlt
          simp only [List.getElem_cons_succ]
          cases j with
          | zero =>
            simp only [List.getElem_cons_zero]
            omega
          | succ j' =>
            have hj' : j' < tl.length := by simpa using hj
            have hh := h2 j' hj' (by omega)
            simpa [List.getElem_cons_succ] using hh
        · intro j hj
          simp only [List.getElem_cons_succ]
          cases j with
          | zero =>
            simp only [List.getElem_cons_zero]
            omega
          | succ j' =>
            have hj' : j' < tl.length := by simpa using hj
            have hh := h3 j' hj'
            simpa [List.getElem_cons_succ] using hh
        · rw [hstep, h4]
          simp [List.getElem_cons_succ]

/-! ### Lemmas characterising profile extraction -/

/-- Membership in a successfully collected string list mirrors membership of the corresponding string values. -/
theorem strList_mem (items : List JVal) (strs : List String) (h : strList items = some strs) :
    ∀ s, s ∈ strs ↔ JVal.str s ∈ items := by
  induction items generalizing strs with
  | nil =>
    simp only [strList] at h
    injection h with h
    subst h
    simp
  | cons v vs ih =>
    rw [strList] at h
    cases hj : jstr v with
    | none => rw [hj] at h; simp at h
    | some s0 =>
      rw [hj] at h
      cases hrest : strList vs with
      | none => rw [hrest] at h; simp at h
      | some strs' =>
        rw [hrest] at h
        simp only [Option.some_bind, Option.pure_def] at h
        injection h with h
        subst h
        have hv : v = JVal.str s0 := by
          cases v with
          | str s => simp [jstr] at hj; rw [hj]
          | num n => simp [jstr] at hj
          | bool b => simp [jstr] at hj
          | null => simp [jstr] at hj
          | arr l => simp [jstr] at hj
          | obj l => simp [jstr] at hj
        subst hv
        intro s
        simp [List.mem_cons, ih strs' hrest s]

/-- Membership in one entry's allergy contribution. -/
theorem keyAllergies_mem (k : String) (v : JVal) (a0 : List String)
    (h : keyAllergies k v = some a0) (x : String) :
    x ∈ a0 ↔ (pyLower k = "allergies" ∧
      ∃ items s, v = JVal.arr items ∧ JVal.str s ∈ items ∧ normAllergy s = x) := by
  unfold keyAllergies at h
  split at h
  · rename_i hbk
    have hk : pyLower k = "allergies" := by simpa using hbk
    split at h
    · rename_i items
      cases hs : strList items with
      | none => rw [hs] at h; simp at h
      | some strs =>
        rw [hs] at h
        simp only [Option.map_some', Option.some.injEq] at h
        subst h
        simp only [List.mem_map, hk, true_and]
        constructor
        · rintro ⟨s, hsmem, hf⟩
          exact ⟨items, s, rfl, (strList_mem items strs hs s).mp hsmem, hf⟩
        · rintro ⟨items', s, heq, hsmem, hf⟩
          injection heq with heq
          subst heq
          exact ⟨s, (strList_mem items strs hs s).mpr hsmem, hf⟩
    · rename_i hne
      simp only [Option.some.injEq] at h
      subst h
      simp only [List.not_mem_nil, false_iff]
      rintro ⟨-, items, s, rfl, -, -⟩
      exact hne items rfl
  · rename_i hbk
    have hk : pyLower k ≠ "allergies" := by simpa using hbk
    simp only [Option.some.injEq] at h
    subst h
    simp [hk]

/-- Membership in one entry's preference contribution. -/
theorem keyPrefs_mem (k : String) (v : JVal) (p0 : List String)
    (h : keyPrefs k v = some p0) (x : String) :
    x ∈ p0 ↔ (pyLower k = "preferences" ∧
      ∃ items s, v = JVal.arr items ∧ JVal.str s ∈ items ∧ pyLower s = x) := by
  unfold keyPrefs at h
  split at h
  · rename_i hbk
    have hk : pyLower k = "preferences" := by simpa using hbk
    split at h
    · rename_i items
      cases hs : strList items with
      | none => rw [hs] at h; simp at h
      | some strs =>
        rw [hs] at h
        simp only [Option.map_some', Option.some.injEq] at h
        subst h
        simp only [List.mem_map, hk, true_and]
        constructor
        · rintro ⟨s, hsmem, hf⟩
          exact ⟨items, s, rfl, (strList_mem items strs hs s).mp hsmem, hf⟩
        · rintro ⟨items', s, heq, hsmem, hf⟩
          injection heq with heq
          subst heq
          exact ⟨s, (strList_mem items strs hs s).mpr hsmem, hf⟩
    · rename_i hne
      simp only [Option.some.injEq] at h
      subst h
      simp only [List.not_mem_nil, false_iff]
      rintro ⟨-, items, s, rfl, -, -⟩
      exact hne items rfl
  · rename_i hbk
    have hk : pyLower k ≠ "preferences" := by simpa using hbk
    simp only [Option.some.injEq] at h
    subst h
    simp [hk]

/-- Unfolding `KeyListAt` over a non-empty array. -/
theorem keyListAt_arr_cons (key : String) (x : JVal) (xs : List JVal) (items : List JVal) :
    KeyListAt key (.arr (x :: xs)) items ↔
      KeyListAt key x items ∨ KeyListAt key (.arr xs) items := by
  constructor
  · intro h
    cases h with
    | viaArr hmem hk =>
      rcases List.mem_cons.mp hmem with rfl | hmem'
      · exact Or.inl hk
      · exact Or.inr (KeyListAt.viaArr hmem' hk)
  · rintro (h | h)
    · exact KeyListAt.viaArr (List.mem_cons_self _ _) h
    · cases h with
      | viaArr hmem hk => exact KeyListAt.viaArr (List.mem_cons_of_mem _ hmem) hk

/-- Unfolding `KeyListAt` over a non-empty object. -/
theorem keyListAt_obj_cons (key k : String) (v : JVal) (rest : List (String × JVal))
    (items : List JVal) :
    KeyListAt key (.obj ((k, v) :: rest)) items ↔
      (pyLower k = key ∧ v = JVal.arr items) ∨ KeyListAt key v items ∨
        KeyListAt key (.obj rest) items := by
  constructor
  · intro h
    cases h with
    | here hmem hk =>
      rcases List.mem_cons.mp hmem with heq | hmem'
      · injection heq with h1 h2
        subst h1
        exact Or.inl ⟨hk, h2.symm⟩
      · exact Or.inr (Or.inr (KeyListAt.here hmem' hk))
    | viaVal hmem hk =>
      rcases List.mem_cons.mp hmem with heq | hmem'
      · injection heq with h1 h2
        subst h2
        exact Or.inr (Or.inl hk)
      · exact Or.inr (Or.inr (KeyListAt.viaVal hmem' hk))
  · rintro (⟨hk, rfl⟩ | h | h)
    · exact KeyListAt.here (List.mem_cons_self _ _) hk
    · exact KeyListAt.viaVal (List.mem_cons_self _ _) h
    · cases h with
      | here hmem hk => exact KeyListAt.here (List.mem_cons_of_mem _ hmem) hk
      | viaVal hmem hk => exact KeyListAt.viaVal (List.mem_cons_of_mem _ hmem) hk

/-- Unfolding `srcVia` over a non-empty array. -/
theorem srcVia_arr_cons (key : String) (f : String → String) (x : JVal) (xs : List JVal)
    (y : String) :
    srcVia key f (.arr (x :: xs)) y ↔ srcVia key f x y ∨ srcVia key f (.arr xs) y := by
  simp only [srcVia, keyListAt_arr_cons, or_and_right, exists_or]

/-- Unfolding `srcVia` over a non-empty object. -/
theorem srcVia_obj_cons (key : String) (f : String → String) (k : String) (v : JVal)
    (rest : List (String × JVal)) (y : String) :
    srcVia key f (.obj ((k, v) :: rest)) y ↔
      (pyLower k = key ∧ ∃ items s, v = JVal.arr items ∧ JVal.str s ∈ items ∧ f s = y) ∨
        srcVia key f v y ∨ srcVia key f (.obj rest) y := by
  simp only [srcVia, keyListAt_obj_cons, or_and_right, exists_or]
  constructor
  · rintro (⟨items, s, ⟨hk, rfl⟩, hmem, hf⟩ | h | h)
    · exact Or.inl ⟨hk, items, s, rfl, hmem, hf⟩
    · exact Or.inr (Or.inl h)
    · exact Or.inr (Or.inr h)
  · rintro (⟨hk, items, s, rfl, hmem, hf⟩ | h | h)
    · exact Or.inl ⟨items, s, ⟨hk, rfl⟩, hmem, hf⟩
    · exact Or.inr (Or.inl h)
    · exact Or.inr (Or.inr h)

/-- Documents with no matching list contribute nothing. -/
theorem not_srcVia_of_no_list (key : String) (f : String → String) (j : JVal) (y : String)
    (h : ∀ items, ¬ KeyListAt key j items) : ¬ srcVia key f j y := by
  rintro ⟨items, s, hK, _, _⟩
  exact h items hK

/-- Characterisation of a successful traversal: the collected allergy and preference lists contain exactly the normalised string elements of matching lists anywhere in the document. -/
theorem extractA_mem_char (j : JVal) :
    ∀ a p, extractA j = some (a, p) →
      (∀ x, x ∈ a ↔ srcVia "allergies" normAllergy j x) ∧
      (∀ x, x ∈ p ↔ srcVia "preferences" pyLower j x) := by
  induction j using extractA.induct with
  | case1 s =>
    intro a p h
    rw [extractA] at h
    simp only [Option.some.injEq, Prod.mk.injEq] at h
    obtain ⟨rfl, rfl⟩ := h
    constructor <;> intro x <;>
      exact iff_of_false (List.not_mem_nil x)
        (not_srcVia_of_no_list _ _ _ _ (fun items hK => by cases hK))
  | case2 n =>
    intro a p h
    rw [extractA] at h
    simp only [Option.some.injEq, Prod.mk.injEq] at h
    obtain ⟨rfl, rfl⟩ := h
    constructor <;> intro x <;>
      exact iff_of_false (List.not_mem_nil x)
        (not_srcVia_of_no_list _ _ _ _ (fun items hK => by cases hK))
  | case3 b =>
    intro a p h
    rw [extractA] at h
    simp only [Option.some.injEq, Prod.mk.injEq] at h
    obtain ⟨rfl, rfl⟩ := h
    constructor <;> intro x <;>
      exact iff_of_false (List.not_mem_nil x)
        (not_srcVia_of_no_list _ _ _ _ (fun items hK => by cases hK))
  | case4 =>
    intro a p h
    rw [extractA] at h
    simp only [Option.some.injEq, Prod.mk.injEq] at h
    obtain ⟨rfl, rfl⟩ := h
    constructor <;> intro x <;>
      exact iff_of_false (List.not_mem_nil x)
        (not_srcVia_of_no_list _ _ _ _ (fun items hK => by cases hK))
  | case5 =>
    intro a p h
    rw [extractA] at h
    simp only [Option.some.injEq, Prod.mk.injEq] at h
    obtain ⟨rfl, rfl⟩ := h
    constructor <;> intro x <;>
      refine iff_of_false (List.not_mem_nil x)
        (not_srcVia_of_no_list _ _ _ _ (fun items hK => ?_)) <;>
      · cases hK with
        | viaArr hmem _ => exact absurd hmem (List.not_mem_nil _)
  | case6 v vs ihv ihvs =>
    intro a p h
    rw [extractA] at h
    cases h1 : extractA v with
    | none => rw [h1] at h; simp at h
    | some ap1 =>
      obtain ⟨a1, p1⟩ := ap1
      cases h2 : extractA (.arr vs) with
      | none => rw [h1, h2] at h; simp at h
      | some ap2 =>
        obtain ⟨a2, p2⟩ := ap2
        rw [h1, h2] at h
        simp only [Option.some_bind, Option.pure_def, Option.some.injEq, Prod.mk.injEq] at h
        obtain ⟨rfl, rfl⟩ := h
        obtain ⟨cA1, cP1⟩ := ihv a1 p1 h1
        obtain ⟨cA2, cP2⟩ := ihvs a2 p2 h2
        constructor <;> intro x
        · rw [List.mem_append, cA1 x, cA2 x, srcVia_arr_cons]
        · rw [List.mem_append, cP1 x, cP2 x, srcVia_arr_cons]
  | case7 =>
    intro a p h
    rw [extractA] at h
    simp only [Option.some.injEq, Prod.mk.injEq] at h
    obtain ⟨rfl, rfl⟩ := h
    constructor <;> intro x <;>
      refine iff_of_false (List.not_mem_nil x)
        (not_srcVia_of_no_list _ _ _ _ (fun items hK => ?_)) <;>
      · cases hK with
        | here hmem _ => exact absurd hmem (List.not_mem_nil _)
        | viaVal hmem _ => exact absurd hmem (List.not_mem_nil _)
  | case8 k v rest ihv ihrest =>
    intro a p h
    rw [extractA] at h
    cases hA : keyAllergies k v with
    | none => rw [hA] at h; simp at h
    | some a0 =>
      cases hP : keyPrefs k v with
      | none => rw [hA, hP] at h; simp at h
      | some p0 =>
        cases h1 : extractA v with
        | none => rw [hA, hP, h1] at h; simp at h
        | some ap1 =>
          obtain ⟨a1, p1⟩ := ap1
          cases h2 : extractA (.obj rest) with
          | none => rw [hA, hP, h1, h2] at h; simp at h
          | some ap2 =>
            obtain ⟨a2, p2⟩ := ap2
            rw [hA, hP, h1, h2] at h
            simp only [Option.some_bind, Option.pure_def, Option.some.injEq,
              Prod.mk.injEq] at h
            obtain ⟨rfl, rfl⟩ := h
            obtain ⟨cA1, cP1⟩ := ihv a1 p1 h1
            obtain ⟨cA2, cP2⟩ := ihrest a2 p2 h2
            constructor <;> intro x
            · rw [List.mem_append, List.mem_append,
                keyAllergies_mem k v a0 hA x, cA1 x, cA2 x, srcVia_obj_cons, or_assoc]
            · rw [List.mem_append, List.mem_append,
                keyPrefs_mem k v p0 hP x, cP1 x, cP2 x, srcVia_obj_cons, or_assoc]

/-- Collecting a list of strings never fails. -/
theorem strList_isSome (items : List JVal) (h : ∀ v ∈ items, ∃ s, v = JVal.str s) :
    (strList items).isSome = true := by
  induction items with
  | nil => simp [strList]
  | cons v vs ih =>
    obtain ⟨s, rfl⟩ := h v (List.mem_cons_self _ _)
    have hs := ih (fun v' hv' => h v' (List.mem_cons_of_mem _ hv'))
    rw [strList]
    cases hrest : strList vs with
    | none => rw [hrest] at hs; simp at hs
    | some strs => simp [jstr, hrest]

/-- Goodness is inherited by the components of an array. -/
theorem goodProfile_arr_cons (v : JVal) (vs : List JVal)
    (h : goodProfile (.arr (v :: vs))) : goodProfile v ∧ goodProfile (.arr vs) := by
  constructor
  · intro key items hkey hK
    exact h key items hkey ((keyListAt_arr_cons key v vs items).mpr (Or.inl hK))
  · intro key items hkey hK
    exact h key items hkey ((keyListAt_arr_cons key v vs items).mpr (Or.inr hK))

/-- Goodness is inherited by the components of an object. -/
theorem goodProfile_obj_cons (k : String) (v : JVal) (rest : List (String × JVal))
    (h : goodProfile (.obj ((k, v) :: rest))) :
    goodProfile v ∧ goodProfile (.obj rest) := by
  constructor
  · intro key items hkey hK
    exact h key items hkey ((keyListAt_obj_cons key k v rest items).mpr (Or.inr (Or.inl hK)))
  · intro key items hkey hK
    exact h key items hkey
      ((keyListAt_obj_cons key k v rest items).mpr (Or.inr (Or.inr hK)))

/-- On a good document an entry's allergy contribution never fails. -/
theorem keyAllergies_isSome (k : String) (v : JVal) (rest : List (String × JVal))
    (h : goodProfile (.obj ((k, v) :: rest))) : (keyAllergies k v).isSome = true := by
  unfold keyAllergies
  split
  · rename_i hbk
    have hk : pyLower k = "allergies" := by simpa using hbk
    split
    · rename_i items
      have hgood : ∀ w ∈ items, ∃ s, w = JVal.str s := by
        intro w hw
        exact h "allergies" items (Or.inl rfl)
          ((keyListAt_obj_cons "allergies" k (JVal.arr items) rest items).mpr
            (Or.inl ⟨hk, rfl⟩)) w hw
      cases hs : strList items with
      | none =>
        have := strList_isSome items hgood
        rw [hs] at this
        simp at this
      | some strs => simp
    · simp
  · simp

/-- On a good document an entry's preference contribution never fails. -/
theorem keyPrefs_isSome (k : String) (v : JVal) (rest : List (String × JVal))
    (h : goodProfile (.obj ((k, v) :: rest))) : (keyPrefs k v).isSome = true := by
  unfold keyPrefs
  split
  · rename_i hbk
    have hk : pyLower k = "preferences" := by simpa using hbk
    split
    · rename_i items
      have hgood : ∀ w ∈ items, ∃ s, w = JVal.str s := by
        intro w hw
        exact h "preferences" items (Or.inr rfl)
          ((keyListAt_obj_cons "preferences" k (JVal.arr items) rest items).mpr
            (Or.inl ⟨hk, rfl⟩)) w hw
      cases hs : strList items with
      | none =>
        have := strList_isSome items hgood
        rw [hs] at this
        simp at this
      | some strs => simp
    · simp
  · simp

/-- The traversal of a good document never raises. -/
theorem extractA_isSome (j : JVal) : goodProfile j → (extractA j).isSome = true := by
  induction j using extractA.induct with
  | case1 s => intro _; rw [extractA]; rfl
  | case2 n => intro _; rw [extractA]; rfl
  | case3 b => intro _; rw [extractA]; rfl
  | case4 => intro _; rw [extractA]; rfl
  | case5 => intro _; rw [extractA]; rfl
  | case6 v vs ihv ihvs =>
    intro h
    obtain ⟨hv, hvs⟩ := goodProfile_arr_cons v vs h
    rw [extractA]
    cases h1 : extractA v with
    | none => have := ihv hv; rw [h1] at this; simp at this
    | some ap1 =>
      obtain ⟨a1, p1⟩ := ap1
      cases h2 : extractA (.arr vs) with
      | none => have := ihvs hvs; rw [h2] at this; simp at this
      | some ap2 =>
        obtain ⟨a2, p2⟩ := ap2
        simp [h1, h2]
  | case7 => intro _; rw [extractA]; rfl
  | case8 k v rest ihv ihrest =>
    intro h
    obtain ⟨hv, hrest⟩ := goodProfile_obj_cons k v rest h
    rw [extractA]
    cases hA : keyAllergies k v with
    | none =>
      have := keyAllergies_isSome k v rest h
      rw [hA] at this
      simp at this
    | some a0 =>
      cases hP : keyPrefs k v with
      | none =>
        have := keyPrefs_isSome k v rest h
        rw [hP] at this
        simp at this
      | some p0 =>
        cases h1 : extractA v with
        | none => have := ihv hv; rw [h1] at this; simp at this
        | some ap1 =>
          obtain ⟨a1, p1⟩ := ap1
          cases h2 : extractA (.obj rest) with
          | none => have := ihrest hrest; rw [h2] at this; simp at this
          | some ap2 =>
            obtain ⟨a2, p2⟩ := ap2
            simp [hA, hP, h1, h2]


/-- An entry whose key does not match contributes no allergies. -/
theorem keyAllergies_nonmatch (k : String) (v : JVal) (h : pyLower k ≠ "allergies") :
    keyAllergies k v = some [] := by
  unfold keyAllergies
  rw [if_neg (by simpa using h)]

/-- An entry whose key does not match contributes no preferences. -/
theorem keyPrefs_nonmatch (k : String) (v : JVal) (h : pyLower k ≠ "preferences") :
    keyPrefs k v = some [] := by
  unfold keyPrefs
  rw [if_neg (by simpa using h)]

/-- Wrapping a document in a one-entry object with a non-matching key changes nothing. -/
theorem extract_wrap_obj (k : String) (j : JVal)
    (h1 : pyLower k ≠ "allergies") (h2 : pyLower k ≠ "preferences") :
    extract_allergies_preferences (.obj [(k, j)]) = extract_allergies_preferences j := by
  unfold extract_allergies_preferences
  rw [show extractA (.obj [(k, j)]) = extractA (.obj ((k, j) :: [])) from rfl, extractA,
    keyAllergies_nonmatch k j h1, keyPrefs_nonmatch k j h2]
  cases he : extractA j with
  | none => simp
  | some ap =>
    obtain ⟨a, p⟩ := ap
    simp [extractA]

/-- Wrapping a document in a singleton list changes nothing. -/
theorem extract_wrap_arr (j : JVal) :
    extract_allergies_preferences (.arr [j]) = extract_allergies_preferences j := by
  unfold extract_allergies_preferences
  rw [show extractA (.arr [j]) = extractA (.arr (j :: [])) from rfl, extractA]
  cases he : extractA j with
  | none => simp
  | some ap =>
    obtain ⟨a, p⟩ := ap
    simp [extractA]

/-- The two elements of a list can be traversed in either order. -/
theorem extract_swap_arr (j1 j2 : JVal) :
    extract_allergies_preferences (.arr [j1, j2]) =
      extract_allergies_preferences (.arr [j2, j1]) := by
  unfold extract_allergies_preferences
  rcases hE1 : extractA j1 with _ | ⟨a1, p1⟩ <;>
    rcases hE2 : extractA j2 with _ | ⟨a2, p2⟩ <;>
    simp [extractA, hE1, hE2, List.toFinset_append, Finset.union_assoc,
      Finset.union_left_comm, Finset.union_comm]

/-- The two entries of an object can be traversed in either order. -/
theorem extract_swap_obj (k1 k2 : String) (v1 v2 : JVal) :
    extract_allergies_preferences (.obj [(k1, v1), (k2, v2)]) =
      extract_allergies_preferences (.obj [(k2, v2), (k1, v1)]) := by
  unfold extract_allergies_preferences
  rcases hA1 : keyAllergies k1 v1 with _ | a0 <;>
    rcases hP1 : keyPrefs k1 v1 with _ | p0 <;>
    rcases hE1 : extractA v1 with _ | ⟨a1, p1⟩ <;>
    rcases hA2 : keyAllergies k2 v2 with _ | b0 <;>
    rcases hP2 : keyPrefs k2 v2 with _ | q0 <;>
    rcases hE2 : extractA v2 with _ | ⟨a2, p2⟩ <;>
    simp [extractA, hA1, hP1, hE1, hA2, hP2, hE2, List.toFinset_append, Finset.union_assoc,
      Finset.union_left_comm, Finset.union_comm]

/-! Claim theorems, witnesses and counterexamples for the frozen claims. -/

/-- Exact lower-cased equality satisfies the risk condition regardless of the synonym table and fuzzy scorer. -/
theorem riskCond_of_exact (allergenDict : List (String × List String))
    (ratio : String → String → Nat) (allergy allergen : String)
    (heq : pyLower allergen = allergy) :
    riskCond allergenDict ratio allergy allergen = true := by
  simp [riskCond, heq]

/-- C1: For every cart item that resolves to a catalog product and every profile
allergy string, if some allergen listed on that product lower-cases to exactly
the allergy string, classification yields a cart entry whose status is Risk
(or Substituted, when a substitution later upgrades it), and in the Risk case
the reason is the risk message for the first matching allergy/allergen pair,
which contains that allergen verbatim. -/
theorem spec2_C1 (products : List Product) (allergenDict : List (String × List String))
    (substitutions : List (String × SubstEntry)) (ratio : String → String → Nat)
    (extractOne : String → List String → Option (String × Nat))
    (allergies preferences : List String) (item : String) (p : Product)
    (allergy allergen : String)
    (hres : resolveProduct products extractOne (pyLower item) = some (some p))
    (ha : allergy ∈ allergies) (hal : allergen ∈ p.allergens)
    (heq : pyLower allergen = allergy) :
    ∃ e, classifyItem products allergenDict substitutions ratio extractOne
        allergies preferences item = some e ∧
      (e.status = "Risk" ∨ e.status = "Substituted") ∧
      (e.status = "Risk" → ∃ a al, a ∈ allergies ∧ al ∈ p.allergens ∧
        riskCond allergenDict ratio a al = true ∧
        e.reason = riskReason al a ∧ strContains e.reason al = true) := by
  have hcond := riskCond_of_exact allergenDict ratio allergy allergen heq
  obtain ⟨a, al, hfm⟩ := firstMatch_isSome (riskCond allergenDict ratio) allergies
    p.allergens allergy allergen ha hal hcond
  obtain ⟨hamem, halmem, hcond2⟩ := firstMatch_sound _ _ _ _ _ hfm
  simp only [classifyItem, hres, riskPairOf, hfm, Option.isSome_some, if_true]
  cases hsub : dictGet substitutions (pyLower item) with
  | some sub =>
    refine ⟨_, rfl, Or.inr rfl, ?_⟩
    intro hcontra
    simp at hcontra
  | none =>
    refine ⟨_, rfl, Or.inl rfl, ?_⟩
    intro _
    refine ⟨a, al, hamem, halmem, hcond2, rfl, ?_⟩
    rw [riskReason]
    exact strContains_middle "Contains " al _

/-- C2: For every cart item whose lower-cased name is not an exact key of the
catalog and whose best fuzzy-match score is not greater than 80, classification
fails open: the entry is Safe, with no safe alternative and an empty reason, so
no Risk or Warn check applies and no substitution occurs. -/
theorem spec2_C2 (products : List Product) (allergenDict : List (String × List String))
    (substitutions : List (String × SubstEntry)) (ratio : String → String → Nat)
    (extractOne : String → List String → Option (String × Nat))
    (allergies preferences : List String) (item : String) (b : String) (sc : Nat)
    (hmiss : dictGet (productsByName products) (pyLower item) = none)
    (hext : extractOne (pyLower item) (productNames products) = some (b, sc))
    (hsc : sc ≤ 80) :
    classifyItem products allergenDict substitutions ratio extractOne
      allergies preferences item = some ⟨item, "Safe", none, ""⟩ := by
  have hres : resolveProduct products extractOne (pyLower item) = some none := by
    unfold resolveProduct
    rw [hmiss, hext]
    simp [show ¬ sc > 80 from by omega]
  simp [classifyItem, hres, riskPairOf]

/-- C3: The final status of an item is Substituted if and only if it was
flagged Risk and its lower-cased name is exactly a key of the substitution
table; a flagged item whose name is not a key keeps status Risk, and an
unflagged item is never Substituted. -/
theorem spec2_C3 (products : List Product) (allergenDict : List (String × List String))
    (substitutions : List (String × SubstEntry)) (ratio : String → String → Nat)
    (extractOne : String → List String → Option (String × Nat))
    (allergies preferences : List String) (item : String) (e : CartEntry)
    (hcl : classifyItem products allergenDict substitutions ratio extractOne
      allergies preferences item = some e) :
    (e.status = "Substituted" ↔
      (riskFlagged products allergenDict ratio extractOne allergies item = true ∧
        (dictGet substitutions (pyLower item)).isSome = true)) ∧
    (riskFlagged products allergenDict ratio extractOne allergies item = true →
      dictGet substitutions (pyLower item) = none → e.status = "Risk") ∧
    (riskFlagged products allergenDict ratio extractOne allergies item = false →
      e.status ≠ "Substituted") := by
  cases hres : resolveProduct products extractOne (pyLower item) with
  | none =>
    simp only [classifyItem, hres] at hcl
    exact absurd hcl (by simp)
  | some productOpt =>
    simp only [classifyItem, hres] at hcl
    unfold riskFlagged
    rw [hres]
    cases hrp : riskPairOf allergenDict ratio allergies productOpt with
    | none =>
      simp only [hrp, Option.isSome_none, Bool.false_eq_true, if_false] at hcl
      simp only [Option.some.injEq] at hcl
      subst hcl
      simp only [hrp, Option.isSome_none]
      refine ⟨?_, ?_, ?_⟩
      · constructor
        · intro hst
          exfalso
          revert hst
          split <;> simp
        · rintro ⟨hcontra, -⟩
          simp at hcontra
      · intro hcontra
        simp at hcontra
      · intro _
        split <;> simp
    | some pr =>
      obtain ⟨a, al⟩ := pr
      simp only [hrp, Option.isSome_some, if_true] at hcl
      cases hsub : dictGet substitutions (pyLower item) with
      | some sub =>
        rw [hsub] at hcl
        simp only [Option.some.injEq] at hcl
        subst hcl
        simp [hsub, hrp]
      | none =>
        rw [hsub] at hcl
        simp only [Option.some.injEq] at hcl
        subst hcl
        simp [hsub, hrp]

/-- The cart loop from any accumulator equals an independent per-item map. -/
theorem processCartLoop_eq_mapM (products : List Product)
    (allergenDict : List (String × List String))
    (substitutions : List (String × SubstEntry)) (ratio : String → String → Nat)
    (extractOne : String → List String → Option (String × Nat))
    (allergies preferences : List String) (items : List String) :
    ∀ acc, processCartLoop products allergenDict substitutions ratio extractOne
        allergies preferences items acc =
      (items.mapM (classifyItem products allergenDict substitutions ratio extractOne
        allergies preferences)).map (acc ++ ·) := by
  induction items with
  | nil =>
    intro acc
    simp only [processCartLoop, List.mapM_nil, Option.pure_def, Option.map_some']
    simp
  | cons item rest ih =>
    intro acc
    cases hcl : classifyItem products allergenDict substitutions ratio extractOne
        allergies preferences item with
    | none =>
      simp only [processCartLoop, hcl, List.mapM_cons]
      rfl
    | some e =>
      simp only [processCartLoop, hcl, List.mapM_cons]
      rw [ih (acc ++ [e])]
      simp only [Option.some_bind, Option.pure_def]
      cases hrest : rest.mapM (classifyItem products allergenDict substitutions ratio
          extractOne allergies preferences) with
      | none => rfl
      | some l =>
        simp only [Option.some_bind, Option.map_some', Option.some.injEq]
        simp [List.append_assoc]

/-- C6: Classification is deterministic and stateless across items and calls:
the cart accumulation loop is exactly the independent map of the pure per-item
classification function over the shopping list, so two runs on the same item
list, catalog snapshot, profile sets, synonym table and substitution table
produce identical cart entries. -/
theorem spec2_C6 (products : List Product) (allergenDict : List (String × List String))
    (substitutions : List (String × SubstEntry)) (ratio : String → String → Nat)
    (extractOne : String → List String → Option (String × Nat))
    (allergies preferences : List String) (shoppingList : List String) :
    process_cart products allergenDict substitutions ratio extractOne
        allergies preferences shoppingList =
      shoppingList.mapM (classifyItem products allergenDict substitutions ratio extractOne
        allergies preferences) := by
  rw [process_cart, processCartLoop_eq_mapM]
  cases h : shoppingList.mapM (classifyItem products allergenDict substitutions ratio
      extractOne allergies preferences) with
  | none => rfl
  | some l => simp

/-- Coverage counts are non-negative. -/
theorem storeCount_nonneg (cartSkus : List String) (e : String × List String) :
    0 ≤ storeCount cartSkus e := Int.natCast_nonneg _

/-- C5: For every non-empty store map and every resolved cart SKU list, the
selected store's coverage count is maximal, and the chosen index is the first
one attaining the maximum: every earlier store has a strictly smaller count,
since a later store replaces the current best only on a strictly greater
count. -/
theorem spec2_C5 (stores : List (String × List String)) (cartSkus : List String)
    (hne : stores ≠ []) :
    ∃ i, ∃ hi : i < stores.length,
      (selectStore stores cartSkus).1 = some stores[i].1 ∧
      (selectStore stores cartSkus).2.1 = storeCount cartSkus stores[i] ∧
      (∀ j, ∀ hj : j < stores.length,
        storeCount cartSkus stores[j] ≤ storeCount cartSkus stores[i]) ∧
      (∀ j, ∀ hj : j < stores.length, j < i →
        storeCount cartSkus stores[j] < storeCount cartSkus stores[i]) := by
  rcases selLoop_spec cartSkus stores none (-1) [] with ⟨heq, hall⟩ | ⟨i, hi, h1, h2, h3, h4⟩
  · exfalso
    cases stores with
    | nil => exact hne rfl
    | cons e rest =>
      have hle := hall e (List.mem_cons_self _ _)
      have hge := storeCount_nonneg cartSkus e
      omega
  · refine ⟨i, hi, ?_, ?_, ?_, ?_⟩
    · rw [selectStore, h4]
    · rw [selectStore, h4]
    · exact h3
    · exact h2

/-- C4 (amended): for every selection run over a store map (pairwise distinct
keys) whose store names are all non-empty, the packed SKU list and the missing
SKU list are disjoint and their union is exactly the set of resolved cart
SKUs.  The non-empty-name proviso is forced by the counterexample: Python's
`if best_store:` truthiness treats a store named `""` like no store at all
when computing the missing list. -/
theorem spec2_C4 (stores : List (String × List String)) (cartSkus : List String)
    (r : SelResult)
    (hnd : (stores.map Prod.fst).Nodup)
    (hne : ∀ e ∈ stores, e.1 ≠ "")
    (hr : pickup_selection stores cartSkus = some r) :
    (∀ sku, ¬(sku ∈ r.packed ∧ sku ∈ r.missing)) ∧
    (∀ sku, sku ∈ cartSkus ↔ (sku ∈ r.packed ∨ sku ∈ r.missing)) := by
  unfold pickup_selection at hr
  rcases selLoop_spec cartSkus stores none (-1) [] with ⟨heq, hall⟩ | ⟨i, hi, h1, h2, h3, h4⟩
  · rw [show selectStore stores cartSkus = (none, -1, []) from heq] at hr
    simp only [computeMissing, Option.map_some', Option.some.injEq] at hr
    subst hr
    refine ⟨?_, ?_⟩
    · intro sku
      rintro ⟨hp, -⟩
      exact absurd hp (List.not_mem_nil sku)
    · intro sku
      simp
  · rw [show selectStore stores cartSkus = (some stores[i].1, storeCount cartSkus stores[i],
      storePacked stores[i].2 cartSkus) from h4] at hr
    have hname : stores[i].1 ≠ "" := hne stores[i] (List.getElem_mem hi)
    have hget : dictGet stores stores[i].1 = some stores[i].2 := dictGet_getElem stores i hi hnd
    simp only [computeMissing, if_neg hname, hget, Option.map_some', Option.some.injEq] at hr
    subst hr
    refine ⟨?_, ?_⟩
    · intro sku
      rintro ⟨hp, hm⟩
      simp only [storePacked, List.mem_filter] at hp
      simp only [List.mem_filter] at hm
      rw [hp.2] at hm
      simp at hm
    · intro sku
      simp only [storePacked, List.mem_filter]
      by_cases hmem : stores[i].2.contains sku
      · constructor
        · intro hc; exact Or.inl ⟨hc, hmem⟩
        · rintro (⟨hc, -⟩ | ⟨hc, -⟩) <;> exact hc
      · constructor
        · intro hc
          right
          refine ⟨hc, ?_⟩
          simpa using hmem
        · rintro (⟨hc, -⟩ | ⟨hc, -⟩) <;> exact hc

/-- C10: Whenever the store map is non-empty, store selection returns a chosen
store — the none outcome occurs exactly when the map is empty; and when no
store stocks any cart SKU, the first store in iteration order is chosen with
an empty packed list while every resolved SKU becomes missing. -/
theorem spec2_C10 (stores : List (String × List String)) (cartSkus : List String)
    (hnd : (stores.map Prod.fst).Nodup) :
    (stores = [] → (selectStore stores cartSkus).1 = none) ∧
    (stores ≠ [] → (selectStore stores cartSkus).1.isSome = true) ∧
    (∀ st rest, stores = st :: rest → (∀ e ∈ stores, storeCount cartSkus e = 0) →
      (selectStore stores cartSkus).1 = some st.1 ∧
      pickup_selection stores cartSkus = some ⟨some st.1, [], cartSkus⟩) := by
  refine ⟨?_, ?_, ?_⟩
  · rintro rfl
    rfl
  · intro hne
    rcases selLoop_spec cartSkus stores none (-1) [] with ⟨heq, hall⟩ | ⟨i, hi, h1, h2, h3, h4⟩
    · exfalso
      cases stores with
      | nil => exact hne rfl
      | cons e rest =>
        have hle := hall e (List.mem_cons_self _ _)
        have hge := storeCount_nonneg cartSkus e
        omega
    · rw [show selectStore stores cartSkus = (some stores[i].1, storeCount cartSkus stores[i],
        storePacked stores[i].2 cartSkus) from h4]
      rfl
  · rintro st rest rfl hzero
    rcases selLoop_spec cartSkus (st :: rest) none (-1) [] with ⟨heq, hall⟩ | ⟨i, hi, h1, h2, h3, h4⟩
    · exfalso
      have hle := hall st (List.mem_cons_self _ _)
      have hge := storeCount_nonneg cartSkus st
      omega
    · have hi0 : i = 0 := by
        by_contra hne0
        have hlt : 0 < i := Nat.pos_of_ne_zero hne0
        have := h2 0 (Nat.succ_pos _) hlt
        rw [hzero ((st :: rest)[0]) (List.getElem_mem (by simp)),
          hzero ((st :: rest)[i]) (List.getElem_mem hi)] at this
        omega
      subst hi0
      have hcnt0 : storeCount cartSkus st = 0 := hzero st (List.mem_cons_self _ _)
      have hpk : storePacked st.2 cartSkus = [] := by
        have : (storePacked st.2 cartSkus).length = 0 := by
          simp only [storeCount] at hcnt0
          omega
        exact List.length_eq_zero.mp this
      have hbest : selectStore (st :: rest) cartSkus =
          (some st.1, storeCount cartSkus st, storePacked st.2 cartSkus) := by
        rw [selectStore]
        simpa using h4
      refine ⟨by rw [hbest], ?_⟩
      simp only [pickup_selection, hbest]
      have hmiss : computeMissing (st :: rest) (some st.1) cartSkus = some cartSkus := by
        simp only [computeMissing]
        by_cases hname : st.1 = ""
        · rw [if_pos hname]
        · rw [if_neg hname]
          have hget : dictGet (st :: rest) st.1 = some st.2 := by
            have := dictGet_getElem (st :: rest) 0 (Nat.succ_pos _) hnd
            simpa using this
          rw [hget]
          show some (cartSkus.filter (fun sku => !(st.2.contains sku))) = some cartSkus
          have hfil : ∀ sku ∈ cartSkus, ¬ st.2.contains sku = true := by
            intro sku hsku
            have := List.filter_eq_nil_iff.mp hpk sku hsku
            simpa using this
          have : cartSkus.filter (fun sku => !(st.2.contains sku)) = cartSkus := by
            apply List.filter_eq_self.mpr
            intro a ha
            simpa using hfil a ha
          rw [this]
      rw [hmiss]
      simp [hpk]

/-- C7: Wrapping a profile document in an additional mapping layer (under any
key that matches neither "allergies" nor "preferences") or in an additional
list layer leaves the extraction result unchanged, and traversal order of
sibling containers does not affect the extracted sets. -/
theorem spec2_C7 (j : JVal) (k : String)
    (h1 : pyLower k ≠ "allergies") (h2 : pyLower k ≠ "preferences") :
    extract_allergies_preferences (.obj [(k, j)]) = extract_allergies_preferences j ∧
    extract_allergies_preferences (.arr [j]) = extract_allergies_preferences j ∧
    (∀ j2, extract_allergies_preferences (.arr [j, j2]) =
      extract_allergies_preferences (.arr [j2, j])) ∧
    (∀ k2 v2, extract_allergies_preferences (.obj [(k, j), (k2, v2)]) =
      extract_allergies_preferences (.obj [(k2, v2), (k, j)])) :=
  ⟨extract_wrap_obj k j h1 h2, extract_wrap_arr j,
    fun j2 => extract_swap_arr j j2, fun k2 v2 => extract_swap_obj k k2 j v2⟩

/-- Witness for C7 at a concrete nested profile. -/
theorem spec2_C7_witness :
    extract_allergies_preferences
        (.obj [("profile", .obj [("allergies", .arr [.str "milk"])])]) =
      extract_allergies_preferences (.obj [("allergies", .arr [.str "milk"])]) ∧
    extract_allergies_preferences (.arr [.obj [("allergies", .arr [.str "milk"])]]) =
      extract_allergies_preferences (.obj [("allergies", .arr [.str "milk"])]) ∧
    extract_allergies_preferences (.arr [.obj [("allergies", .arr [.str "milk"])], .null]) =
      extract_allergies_preferences (.arr [.null, .obj [("allergies", .arr [.str "milk"])]]) ∧
    extract_allergies_preferences
        (.obj [("profile", .obj [("allergies", .arr [.str "milk"])]), ("name", .str "x")]) =
      extract_allergies_preferences
        (.obj [("name", .str "x"), ("profile", .obj [("allergies", .arr [.str "milk"])])]) := by
  have h := spec2_C7 (.obj [("allergies", .arr [.str "milk"])]) "profile"
    (by decide) (by decide)
  exact ⟨h.1, h.2.1, h.2.2.1 .null, h.2.2.2 "name" (.str "x")⟩

/-- C8 (amended): for every document on which extraction succeeds, the allergy
set is exactly the set of string elements of list values under any key equal
to "allergies" (case-insensitively) at any nesting depth, each lower-cased
with every occurrence of the substring " allergy" removed and surrounding
whitespace stripped; the preference set is exactly the lower-cased string
elements of list values under any "preferences" key.  (The claim's literal
suffix-stripping reading is refuted by the counterexample: the code removes
every occurrence, not only a trailing one.) -/
theorem spec2_C8 (j : JVal) (A P : Finset String)
    (h : extract_allergies_preferences j = some (A, P)) :
    (∀ x, x ∈ A ↔ srcVia "allergies" normAllergy j x) ∧
    (∀ x, x ∈ P ↔ srcVia "preferences" pyLower j x) := by
  unfold extract_allergies_preferences at h
  cases he : extractA j with
  | none => rw [he] at h; simp at h
  | some ap =>
    obtain ⟨a, p⟩ := ap
    rw [he] at h
    simp only [Option.map_some', Option.some.injEq, Prod.mk.injEq] at h
    obtain ⟨rfl, rfl⟩ := h
    obtain ⟨cA, cP⟩ := extractA_mem_char j a p he
    constructor <;> intro x
    · rw [List.mem_toFinset, cA x]
    · rw [List.mem_toFinset, cP x]

/-- Witness for C8 at a concrete profile whose allergy entry carries the suffix. -/
theorem spec2_C8_witness :
    ("milk" ∈ ({"milk"} : Finset String)) ↔
      srcVia "allergies" normAllergy
        (.obj [("allergies", .arr [.str "Milk Allergy"])]) "milk" :=
  (spec2_C8 (.obj [("allergies", .arr [.str "Milk Allergy"])]) {"milk"} ∅ (by
    simp only [extract_allergies_preferences, extractA]
    decide)).1 "milk"

/-- C8 counterexample: on the entry "x allergy y" the code removes the inner
occurrence of " allergy" and extracts "x y", whereas the claimed
suffix-stripping normalisation leaves "x allergy y" unchanged, a string that
is not in the extracted set. -/
theorem spec2_C8_counterexample :
    extract_allergies_preferences (.obj [("allergies", .arr [.str "x allergy y"])]) =
      some ({"x y"}, ∅) ∧
    stripAllergySuffix (pyLower "x allergy y") = "x allergy y" ∧
    ("x allergy y" : String) ∉ ({"x y"} : Finset String) := by
  refine ⟨?_, by decide, by decide⟩
  simp only [extract_allergies_preferences, extractA]
  decide

/-- C9 (amended): extraction succeeds on every document whose matching lists
contain only strings — in particular missing or non-list "allergies" and
"preferences" fields never raise — and when no matching key occurs anywhere,
both extracted sets are empty.  (Totality on arbitrary documents is refuted by
the counterexample: a non-string list element raises `AttributeError`.) -/
theorem spec2_C9 (j : JVal) (hg : goodProfile j) :
    (extract_allergies_preferences j).isSome = true ∧
    ((∀ key items, (key = "allergies" ∨ key = "preferences") → ¬ KeyListAt key j items) →
      extract_allergies_preferences j = some (∅, ∅)) := by
  have hs := extractA_isSome j hg
  cases he : extractA j with
  | none => rw [he] at hs; simp at hs
  | some ap =>
    obtain ⟨a, p⟩ := ap
    constructor
    · simp [extract_allergies_preferences, he]
    · intro hnone
      obtain ⟨cA, cP⟩ := extractA_mem_char j a p he
      have ha : a = [] := by
        apply List.eq_nil_iff_forall_not_mem.mpr
        intro x hx
        obtain ⟨items, s, hK, -, -⟩ := (cA x).mp hx
        exact hnone "allergies" items (Or.inl rfl) hK
      have hp : p = [] := by
        apply List.eq_nil_iff_forall_not_mem.mpr
        intro x hx
        obtain ⟨items, s, hK, -, -⟩ := (cP x).mp hx
        exact hnone "preferences" items (Or.inr rfl) hK
      subst ha
      subst hp
      simp [extract_allergies_preferences, he]

/-- Witness for C9 at a document with no matching keys. -/
theorem spec2_C9_witness :
    (extract_allergies_preferences JVal.null).isSome = true ∧
    extract_allergies_preferences JVal.null = some (∅, ∅) := by
  have h := spec2_C9 JVal.null (fun _ _ _ hK => nomatch hK)
  exact ⟨h.1, h.2 (fun _ _ _ hK => nomatch hK)⟩

/-- C9 counterexample: on a profile whose "allergies" list contains the number
1, the Python extractor raises `AttributeError` (`1 .lower()` does not exist),
modelled by the `none` result — so extraction is not total on arbitrary
documents. -/
theorem spec2_C9_counterexample :
    extract_allergies_preferences (.obj [("allergies", .arr [.num 1])]) = none := by
  simp only [extract_allergies_preferences, extractA]
  decide

/-- Witness for C1 on the spec's peanut-butter scenario. -/
theorem spec2_C1_witness :
    ∃ e, classifyItem [⟨"Peanut Butter", "P1", ["Peanuts"]⟩] [] [] (fun _ _ => 0)
        (fun _ _ => none) ["peanuts"] [] "Peanut Butter" = some e ∧
      (e.status = "Risk" ∨ e.status = "Substituted") ∧
      (e.status = "Risk" → ∃ a al, a ∈ ["peanuts"] ∧
        al ∈ (⟨"Peanut Butter", "P1", ["Peanuts"]⟩ : Product).allergens ∧
        riskCond [] (fun _ _ => 0) a al = true ∧
        e.reason = riskReason al a ∧ strContains e.reason al = true) :=
  spec2_C1 [⟨"Peanut Butter", "P1", ["Peanuts"]⟩] [] [] (fun _ _ => 0) (fun _ _ => none)
    ["peanuts"] [] "Peanut Butter" ⟨"Peanut Butter", "P1", ["Peanuts"]⟩ "peanuts" "Peanuts"
    (by decide) (by decide) (by decide) (by decide)

/-- Witness for C2 on an item absent from the catalog with fuzzy score 60. -/
theorem spec2_C2_witness :
    classifyItem [⟨"Peanut Butter", "P1", ["Peanuts"]⟩] [] [] (fun _ _ => 0)
        (fun _ _ => some ("peanut butter", 60)) [] [] "jam" =
      some ⟨"jam", "Safe", none, ""⟩ :=
  spec2_C2 [⟨"Peanut Butter", "P1", ["Peanuts"]⟩] [] [] (fun _ _ => 0)
    (fun _ _ => some ("peanut butter", 60)) [] [] "jam" "peanut butter" 60
    (by decide) rfl (by decide)

/-- Witness for C3 on the substituted peanut-butter scenario. -/
theorem spec2_C3_witness :
    ((⟨"Peanut Butter", "Substituted", some "Sunflower Butter", "Safe swap"⟩ :
        CartEntry).status = "Substituted" ↔
      (riskFlagged [⟨"Peanut Butter", "P1", ["Peanuts"]⟩] [] (fun _ _ => 0)
          (fun _ _ => none) ["peanuts"] "Peanut Butter" = true ∧
        (dictGet [("peanut butter", (⟨"Sunflower Butter", "Safe swap"⟩ : SubstEntry))]
          (pyLower "Peanut Butter")).isSome = true)) :=
  (spec2_C3 [⟨"Peanut Butter", "P1", ["Peanuts"]⟩] []
    [("peanut butter", ⟨"Sunflower Butter", "Safe swap"⟩)] (fun _ _ => 0) (fun _ _ => none)
    ["peanuts"] [] "Peanut Butter"
    ⟨"Peanut Butter", "Substituted", some "Sunflower Butter", "Safe swap"⟩ (by decide)).1

/-- Witness for C4 on a one-store map. -/
theorem spec2_C4_witness :
    (∀ sku, ¬(sku ∈ ((⟨some "A", ["P1"], ["P2"]⟩ : SelResult)).packed ∧
      sku ∈ ((⟨some "A", ["P1"], ["P2"]⟩ : SelResult)).missing)) ∧
    (∀ sku, sku ∈ ["P1", "P2"] ↔
      (sku ∈ ((⟨some "A", ["P1"], ["P2"]⟩ : SelResult)).packed ∨
        sku ∈ ((⟨some "A", ["P1"], ["P2"]⟩ : SelResult)).missing)) :=
  spec2_C4 [("A", ["P1"])] ["P1", "P2"] ⟨some "A", ["P1"], ["P2"]⟩
    (by decide) (by decide) (by decide)

/-- C4 counterexample: with the (non-empty) store map containing the single
store named `""` stocking P1 and the cart [P1], the selection packs P1 yet
also reports it missing, because `if best_store:` is false for the empty
string — packed and missing are not disjoint, refuting the claim as stated. -/
theorem spec2_C4_counterexample :
    pickup_selection [("", ["P1"])] ["P1"] = some ⟨some "", ["P1"], ["P1"]⟩ ∧
    "P1" ∈ ((⟨some "", ["P1"], ["P1"]⟩ : SelResult)).packed ∧
    "P1" ∈ ((⟨some "", ["P1"], ["P1"]⟩ : SelResult)).missing := by decide

/-- Witness for C5 on the spec's two-store example: Store A covers 2 > 1. -/
theorem spec2_C5_witness :
    ∃ i, ∃ hi : i < ([("A", ["P1", "P2"]), ("B", ["P1"])] :
        List (String × List String)).length,
      (selectStore [("A", ["P1", "P2"]), ("B", ["P1"])] ["P1", "P2"]).1 =
        some (([("A", ["P1", "P2"]), ("B", ["P1"])] : List (String × List String))[i].1) ∧
      (selectStore [("A", ["P1", "P2"]), ("B", ["P1"])] ["P1", "P2"]).2.1 =
        storeCount ["P1", "P2"]
          (([("A", ["P1", "P2"]), ("B", ["P1"])] : List (String × List String))[i]) ∧
      (∀ j, ∀ hj : j < ([("A", ["P1", "P2"]), ("B", ["P1"])] :
          List (String × List String)).length,
        storeCount ["P1", "P2"]
            (([("A", ["P1", "P2"]), ("B", ["P1"])] : List (String × List String))[j]) ≤
          storeCount ["P1", "P2"]
            (([("A", ["P1", "P2"]), ("B", ["P1"])] : List (String × List String))[i])) ∧
      (∀ j, ∀ hj : j < ([("A", ["P1", "P2"]), ("B", ["P1"])] :
          List (String × List String)).length, j < i →
        storeCount ["P1", "P2"]
            (([("A", ["P1", "P2"]), ("B", ["P1"])] : List (String × List String))[j]) <
          storeCount ["P1", "P2"]
            (([("A", ["P1", "P2"]), ("B", ["P1"])] : List (String × List String))[i])) :=
  spec2_C5 [("A", ["P1", "P2"]), ("B", ["P1"])] ["P1", "P2"] (by decide)

/-- Witness for C10 on a store stocking none of the cart. -/
theorem spec2_C10_witness :
    (selectStore [("A", ["Q1"])] ["P9"]).1 = some "A" ∧
    pickup_selection [("A", ["Q1"])] ["P9"] = some ⟨some "A", [], ["P9"]⟩ :=
  (spec2_C10 [("A", ["Q1"])] ["P9"] (by decide)).2.2 ("A", ["Q1"]) [] rfl (by decide)
